import Mathlib

/-!
Verification development for the index-selection / SARG planner of a
SQL-for-JSON query engine.  Each section shallowly embeds one Go function of
the repository (the planner's `SargFor` composition loop, `constrainSpan`,
`sargableIndexes`, `minimalIndexes` / `narrowerOrEquivalent`,
`buildSecondaryScan`, `buildPrimaryIndex`, `IndexConnection.Error`,
`buildScan`'s predicate handling, and the error envelope's `MarshalJSON`)
and proves or refutes the specified properties about it.
-/

set_option maxRecDepth 4096

namespace Planner

/-! ### Span model for `SargFor` (planner/sarg.go)

A `Span` is a composite range.  `low` / `high` are the bound expression
sequences; only their lengths and concatenation matter to the composition
loop, so the entries are opaque `Nat` payloads.  `inclusion` is the
`datastore.Inclusion` bitmask (`LOW = 1`, `HIGH = 2`).  `full` models Go
pointer identity with the distinguished global `_FULL_SPANS[0]` object: the
loop compares spans against it with `==` on pointers, and `Span.Copy()`
always produces a fresh (hence non-identical) object. -/

structure Span where
  low : List Nat
  high : List Nat
  inclusion : Nat
  full : Bool
deriving DecidableEq, Repr

/-- `datastore.LOW` -/
def LOW : Nat := 1

/-- `datastore.HIGH` -/
def HIGH : Nat := 2

/-- The global full span `_FULL_SPANS[0]`: empty low, empty high, BOTH. -/
def FULL_SPAN : Span := ⟨[], [], 3, true⟩

/-- `_FULL_SPANS` -/
def FULL_SPANS : List Span := [FULL_SPAN]

/-- `Span.Copy()` : a structurally equal but freshly allocated span, hence
never pointer-identical to `_FULL_SPANS[0]`. -/
def Span.copy (s : Span) : Span := { s with full := false }

/-- The body of the innermost `for next := range ns` composition in
`SargFor`: compose one `prev` span with one `next` span, concatenating the
composite bound sequences.  Returns `none` when `add` stays false (the Go
code then `break`s out of the row). -/
def composePrevNext (prev next : Span) : Option Span :=
  let pre := prev.copy
  let (pre, add) :=
    if pre.low ≠ [] ∧ next.low ≠ [] then
      ({ pre with
          low := pre.low ++ next.low,
          inclusion := (LOW &&& pre.inclusion &&& next.inclusion) |||
            (HIGH &&& pre.inclusion) }, true)
    else (pre, false)
  let (pre, add) :=
    if pre.high ≠ [] ∧ next.high ≠ [] then
      ({ pre with
          high := pre.high ++ next.high,
          inclusion := (HIGH &&& pre.inclusion &&& next.inclusion) |||
            (LOW &&& pre.inclusion) }, true)
    else (pre, add)
  if add then some pre else none

/-- The `pn` accumulation loop: compose `prev` with every `next ∈ ns`;
`none` models the `break` on the first failed composition (after which
`len(pn) == len(ns)` fails and the Go code falls back to `prev` alone). -/
def composeRow (prev : Span) : List Span → Option (List Span)
  | [] => some []
  | next :: rest =>
    match composePrevNext prev next with
    | none => none
    | some pre => (composeRow prev rest).map (pre :: ·)

/-- One iteration of the labelled `prevs:` loop of `SargFor`, producing the
spans appended to `sp` for a single `prev ∈ rs`. -/
def stepPrev (ns : List Span) (prev : Span) : List Span :=
  if prev.low = [] ∧ prev.high = [] then [prev]
  else if ns.length > 16 then [prev]
  else if ns.any (fun next => next.full || (next.low = [] && next.high = [])) then
    [prev]
  else
    match composeRow prev ns with
    | some pn => pn
    | none => [prev]

/-- The cross product of the current key's spans `rs` with the accumulated
composites `ns` (one outer-loop body of `SargFor` after the first key).
If some `prev ∈ rs` is (pointer-identical to) the full span, it subsumes
everything and the loop `continue`s with just that span. -/
def crossProduct (rs ns : List Span) : List Span :=
  match rs.find? (·.full) with
  | some p => [p]
  | none => rs.flatMap (stepPrev ns)

/-- Trace record for one `sargKeys[i].Accept(s)` call inside `SargFor`:
the key position, the `MissingHigh` flag the visitor saw, the spans the
visitor produced (`none` models a nil result or error), and the composite
set `ns` accumulated from the keys to the right at that moment. -/
structure StepLog where
  idx : Nat
  mhIn : Bool
  rs : Option (List Span)
  nsBefore : Option (List Span)
deriving DecidableEq, Repr

/-- The right-to-left `keys:` loop of `SargFor`, instrumented with a trace
of the per-key visitor calls.  `keyFn i mh` abstracts
`sargKeys[i].Accept(s)` with `s.MissingHigh() = mh`; `none` models a nil
result or error, on which `SargFor` returns nil.  The first argument is
the number of keys still to process (the loop runs `i = n-1 … 0`);
`ns = none` models the Go `ns == nil` state, which is distinct from an
empty slice. -/
def sargSteps (keyFn : Nat → Bool → Option (List Span)) :
    Nat → Option (List Span) → Bool → Option (Option (List Span)) × List StepLog
  | 0, ns, _ => (some ns, [])
  | i + 1, ns, mh =>
    let r := keyFn i mh
    let log : StepLog := ⟨i, mh, r, ns⟩
    match r with
    | none => (none, [log])
    | some rs =>
      if rs = [] then
        let rec' := sargSteps keyFn i none mh
        (rec'.1, log :: rec'.2)
      else
        let mh' := if i > 0 then rs.any (fun s => s.high = []) else mh
        let ns' := match ns with
          | none => some rs
          | some nsl => some (crossProduct rs nsl)
        let rec' := sargSteps keyFn i ns' mh'
        (rec'.1, log :: rec'.2)

/-- `SargFor(pred, sargKeys, total)` with the per-key visitor abstracted as
`keyFn` and `n = len(sargKeys)`.  `none` models the early `return nil, err`
when a key's visitor yields nil or an error; otherwise the final guard
replaces an empty or over-256 composite set with `_FULL_SPANS`. -/
def SargFor (keyFn : Nat → Bool → Option (List Span)) (n total : Nat) :
    Option (List Span) :=
  match (sargSteps keyFn n none (decide (n < total))).1 with
  | none => none
  | some nsOpt =>
    let nsl := nsOpt.getD []
    some (if nsl.length = 0 ∨ nsl.length > 256 then FULL_SPANS else nsl)

/-- The visitor-call trace of a `SargFor` run. -/
def sargTrace (keyFn : Nat → Bool → Option (List Span)) (n total : Nat) :
    List StepLog :=
  (sargSteps keyFn n none (decide (n < total))).2

/-- The `missing_high` update rule as the specification sentence states it:
all previous composites carry a low, and the current key produced a span
with no high bound. -/
def claimNextFlag (nsBefore : Option (List Span)) (rs : List Span) : Bool :=
  (match nsBefore with
   | none => true
   | some l => l.all (fun c => c.low ≠ [])) &&
  rs.any (fun s => s.high = [])

/-- Claim C2 as stated, as a proposition about a `SargFor` run: the flag is
initialised to `n < total`, and the flag seen by each subsequent (left)
key equals `claimNextFlag` of the state at the previous key. -/
def MissingHighAsClaimed (keyFn : Nat → Bool → Option (List Span))
    (n total : Nat) : Prop :=
  (∀ e, (sargTrace keyFn n total).head? = some e →
    e.mhIn = decide (n < total)) ∧
  (∀ j e e' rs, (sargTrace keyFn n total)[j]? = some e →
    (sargTrace keyFn n total)[j + 1]? = some e' → e.rs = some rs →
    e'.mhIn = claimNextFlag e.nsBefore rs)

/-- The `ns` state fed to the next outer-loop iteration once the current
key yielded a non-empty `rs`. -/
def nextNs (ns : Option (List Span)) (rs : List Span) : Option (List Span) :=
  match ns with
  | none => some rs
  | some nsl => some (crossProduct rs nsl)

/-- The `MissingHigh` state fed to the next outer-loop iteration once the
current key `i` yielded a non-empty `rs`. -/
def nextMh (i : Nat) (mh : Bool) (rs : List Span) : Bool :=
  if i > 0 then rs.any (fun s => s.high = []) else mh

theorem sargSteps_succ_none {keyFn : Nat → Bool → Option (List Span)}
    {i : Nat} {ns : Option (List Span)} {mh : Bool}
    (hk : keyFn i mh = none) :
    sargSteps keyFn (i + 1) ns mh = (none, [⟨i, mh, none, ns⟩]) := by
  conv_lhs => unfold sargSteps
  rw [hk]

theorem sargSteps_succ_empty {keyFn : Nat → Bool → Option (List Span)}
    {i : Nat} {ns : Option (List Span)} {mh : Bool}
    (hk : keyFn i mh = some []) :
    sargSteps keyFn (i + 1) ns mh =
      ((sargSteps keyFn i none mh).1,
        ⟨i, mh, some [], ns⟩ :: (sargSteps keyFn i none mh).2) := by
  conv_lhs => unfold sargSteps
  rw [hk]
  rfl

theorem sargSteps_succ_cons {keyFn : Nat → Bool → Option (List Span)}
    {i : Nat} {ns : Option (List Span)} {mh : Bool} {rs : List Span}
    (hk : keyFn i mh = some rs) (hrs : rs ≠ []) :
    sargSteps keyFn (i + 1) ns mh =
      ((sargSteps keyFn i (nextNs ns rs) (nextMh i mh rs)).1,
        ⟨i, mh, some rs, ns⟩ ::
          (sargSteps keyFn i (nextNs ns rs) (nextMh i mh rs)).2) := by
  conv_lhs => unfold sargSteps
  rw [hk]
  simp only [if_neg hrs]
  cases ns <;> rfl

theorem sargSteps_trace_head (keyFn : Nat → Bool → Option (List Span))
    (i : Nat) (ns : Option (List Span)) (mh : Bool) :
    ((sargSteps keyFn (i + 1) ns mh).2).head? =
      some ⟨i, mh, keyFn i mh, ns⟩ := by
  cases hk : keyFn i mh with
  | none => rw [sargSteps_succ_none hk]; rfl
  | some rs =>
    by_cases hrs : rs = []
    · subst hrs; rw [sargSteps_succ_empty hk]; rfl
    · rw [sargSteps_succ_cons hk hrs]; rfl

theorem sargSteps_consec (keyFn : Nat → Bool → Option (List Span)) :
    ∀ (n : Nat) (ns : Option (List Span)) (mh : Bool) (j : Nat)
      (e e' : StepLog),
      ((sargSteps keyFn n ns mh).2)[j]? = some e →
      ((sargSteps keyFn n ns mh).2)[j + 1]? = some e' →
      ∃ rs, e.rs = some rs ∧ e.idx = e'.idx + 1 ∧
        e'.mhIn = (if rs = [] then e.mhIn
          else rs.any (fun s => s.high = [])) := by
  intro n
  induction n with
  | zero => intro ns mh j e e' he; simp [sargSteps] at he
  | succ i ih =>
    intro ns mh j e e' he he'
    cases hk : keyFn i mh with
    | none =>
      rw [sargSteps_succ_none hk] at he he'
      cases j with
      | zero => simp at he'
      | succ j' => simp at he
    | some rs =>
      by_cases hrs : rs = []
      · subst hrs
        rw [sargSteps_succ_empty hk] at he he'
        cases j with
        | zero =>
          simp only [List.getElem?_cons_zero, Option.some.injEq] at he
          simp only [List.getElem?_cons_succ] at he'
          subst he
          cases i with
          | zero => simp [sargSteps] at he'
          | succ i' =>
            rw [show ((sargSteps keyFn (i' + 1) none mh).2)[0]? =
                ((sargSteps keyFn (i' + 1) none mh).2).head? from
                  (List.head?_eq_getElem? _).symm,
              sargSteps_trace_head] at he'
            cases he'
            exact ⟨[], rfl, rfl, by simp⟩
        | succ j' =>
          simp only [List.getElem?_cons_succ] at he he'
          exact ih none mh j' e e' he he'
      · rw [sargSteps_succ_cons hk hrs] at he he'
        cases j with
        | zero =>
          simp only [List.getElem?_cons_zero, Option.some.injEq] at he
          simp only [List.getElem?_cons_succ] at he'
          subst he
          cases i with
          | zero => simp [sargSteps] at he'
          | succ i' =>
            rw [show ((sargSteps keyFn (i' + 1) (nextNs ns rs)
                  (nextMh (i' + 1) mh rs)).2)[0]? =
                ((sargSteps keyFn (i' + 1) (nextNs ns rs)
                  (nextMh (i' + 1) mh rs)).2).head? from
                  (List.head?_eq_getElem? _).symm,
              sargSteps_trace_head] at he'
            cases he'
            refine ⟨rs, rfl, rfl, ?_⟩
            simp [hrs, nextMh]
        | succ j' =>
          simp only [List.getElem?_cons_succ] at he he'
          exact ih _ _ j' e e' he he'

/-- C1: `SargFor` never returns more than 256 spans (and never an empty,
non-nil span list), and whenever the composed span set is empty or exceeds
256 spans it returns exactly `_FULL_SPANS`. -/
theorem sargFor_span_cap (keyFn : Nat → Bool → Option (List Span))
    (n total : Nat) :
    (∀ r, SargFor keyFn n total = some r →
      1 ≤ r.length ∧ r.length ≤ 256) ∧
    (∀ nsOpt, (sargSteps keyFn n none (decide (n < total))).1 = some nsOpt →
      ((nsOpt.getD []).length = 0 ∨ (nsOpt.getD []).length > 256) →
      SargFor keyFn n total = some FULL_SPANS) := by
  constructor
  · intro r hr
    unfold SargFor at hr
    cases hstep : (sargSteps keyFn n none (decide (n < total))).1 with
    | none => rw [hstep] at hr; exact absurd hr (by simp)
    | some nsOpt =>
      rw [hstep] at hr
      simp only [Option.some.injEq] at hr
      by_cases hc : (nsOpt.getD []).length = 0 ∨ (nsOpt.getD []).length > 256
      · rw [if_pos hc] at hr
        subst hr
        exact ⟨by simp [FULL_SPANS], by simp [FULL_SPANS]⟩
      · rw [if_neg hc] at hr
        subst hr
        push_neg at hc
        omega
  · intro nsOpt hstep hlen
    unfold SargFor
    rw [hstep]
    simp only [Option.some.injEq]
    rw [if_pos hlen]

/-- Witness for `sargFor_span_cap` at a concrete run (a single key whose
visitor returns an empty span list, so `SargFor` emits `_FULL_SPANS`). -/
theorem sargFor_span_cap_witness :
    1 ≤ FULL_SPANS.length ∧ FULL_SPANS.length ≤ 256 :=
  (sargFor_span_cap (fun _ _ => some []) 1 1).1 FULL_SPANS (by decide)

/-- Per-key visitor used to refute claim C2: key 2 yields a span with no
low bound, key 1 a span with no high bound, and key 0's spans depend on
the `MissingHigh` flag it observes. -/
def ceKeyFn : Nat → Bool → Option (List Span)
  | 2, _ => some [⟨[], [0], 3, false⟩]
  | 1, _ => some [⟨[0], [], 3, false⟩]
  | _, mh => if mh then some [⟨[1], [1], 3, false⟩]
             else some [⟨[2], [2], 3, false⟩]

/-- Counterexample to C2: in the run of `SargFor` on `ceKeyFn` with three
keys, the composite built from key 2 carries no low bound, yet after key 1
(which has a span with no high bound) the code still passes
`MissingHigh = true` to key 0; the claimed rule (which additionally
requires all previous composites to carry a low) predicts `false`. -/
theorem sargFor_missing_high_cex : ¬ MissingHighAsClaimed ceKeyFn 3 3 := by
  intro h
  have h2 := h.2 1 ⟨1, false, some [⟨[0], [], 3, false⟩],
      some [⟨[], [0], 3, false⟩]⟩
    ⟨0, true, some [⟨[1], [1], 3, false⟩], some [⟨[0], [], 3, false⟩]⟩
    [⟨[0], [], 3, false⟩] (by decide) (by decide) rfl
  simp [claimNextFlag] at h2

/-- C2 amended: the flag is initialised to `n < total`; thereafter the flag
passed to the next (left) key is true iff at least one span produced by the
current key has no high bound, except that a key producing no spans leaves
the flag unchanged — the lows of the previously composed spans play no
role. -/
theorem sargFor_missing_high (keyFn : Nat → Bool → Option (List Span))
    (n total : Nat) :
    (∀ e, (sargTrace keyFn n total).head? = some e →
      e.mhIn = decide (n < total)) ∧
    (∀ j e e', (sargTrace keyFn n total)[j]? = some e →
      (sargTrace keyFn n total)[j + 1]? = some e' →
      ∃ rs, e.rs = some rs ∧ e.idx = e'.idx + 1 ∧
        e'.mhIn = (if rs = [] then e.mhIn
          else rs.any (fun s => s.high = []))) := by
  constructor
  · intro e he
    cases n with
    | zero => simp [sargTrace, sargSteps] at he
    | succ i =>
      rw [sargTrace, sargSteps_trace_head] at he
      cases he
      rfl
  · intro j e e' he he'
    exact sargSteps_consec keyFn n none (decide (n < total)) j e e' he he'

/-- Witness for `sargFor_missing_high`: the amended rule evaluated on the
concrete three-key run used in the counterexample — key 1 has a span
missing its high bound, so key 0 sees `MissingHigh = true`. -/
theorem sargFor_missing_high_witness :
    ∃ rs, (some [(⟨[0], [], 3, false⟩ : Span)] : Option (List Span)) =
        some rs ∧ (1 : Nat) = 0 + 1 ∧
      true = (if rs = [] then false
        else rs.any (fun s => s.high = [])) := by
  have h := (sargFor_missing_high ceKeyFn 3 3).2 1
    ⟨1, false, some [⟨[0], [], 3, false⟩], some [⟨[], [0], 3, false⟩]⟩
    ⟨0, true, some [⟨[1], [1], 3, false⟩], some [⟨[0], [], 3, false⟩]⟩
    (by decide) (by decide)
  exact h

/-! ### `constrainSpan` (planner/sarg_and.go)

For `constrainSpan` the bound entries are expressions queried through
`Value()` (the static value or nil), so a bound entry is an `Option V`.
`collate v w` models `v.Collate(w)` for non-nil `w`; `collateNil v` models
`v.Collate(nil)` (reached only on the high-bound path, where the source
guards the call with `high2 == nil`). -/

structure CSpan (V : Type) where
  low : List (Option V)
  high : List (Option V)
  inclusion : Nat
deriving DecidableEq, Repr

/-- `span.Range.Low[0].Value()` (the indexing is guarded by a length
check, so `head?` never actually misses). -/
def headVal {V : Type} (l : List (Option V)) : Option V := l.head?.join

/-- `constrainSpan(span1, span2)`: tighten `span1` and return it (the Go
function mutates `span1` in place). -/
def constrainSpan {V : Type} (collate : V → V → Int) (collateNil : V → Int)
    (span1 span2 : CSpan V) : CSpan V :=
  let s1 :=
    if span2.low.length > 0 then
      if span1.low.length = 0 then
        { span1 with
          low := span2.low,
          inclusion := (span1.inclusion &&& HIGH) ||| (span2.inclusion &&& LOW) }
      else
        let low1 := headVal span1.low
        let low2 := headVal span2.low
        let replace : Bool :=
          match low1, low2 with
          | some _, none => true
          | some v1, some v2 => decide (collate v1 v2 < 0)
          | none, _ => false
        if replace then
          { span1 with
            low := span2.low,
            inclusion := (span1.inclusion &&& HIGH) ||| (span2.inclusion &&& LOW) }
        else span1
    else span1
  if span2.high.length > 0 then
    if s1.high.length = 0 then
      { s1 with
        high := span2.high,
        inclusion := (s1.inclusion &&& LOW) ||| (span2.inclusion &&& HIGH) }
    else
      let high1 := headVal s1.high
      let high2 := headVal span2.high
      let replace : Bool :=
        match high1, high2 with
        | some v1, none => decide (collateNil v1 > 0)
        | _, _ => false
      if replace then
        { s1 with
          high := span2.high,
          inclusion := (s1.inclusion &&& LOW) ||| (span2.inclusion &&& HIGH) }
      else s1
  else s1

/-- Integer collation standing in for JSON value collation in the
counterexample (only the sign of the result matters). -/
def intCollate (a b : Int) : Int := a - b

/-- `v.Collate(nil)` for the integer instantiation (never reached in the
counterexample: both spans carry constant high bounds). -/
def intCollateNil (_ : Int) : Int := 1

/-- C3 fails on the code: when both spans carry a high bound with non-nil
values, the condition `high2 == nil && high1.Collate(high2) > 0` is false
(its conjunction is inverted relative to the low path), so the more
restrictive high bound of `span2` is NOT adopted — while the mirrored low
bounds ARE tightened.  Here `span2`'s high 3 is lower than `span1`'s high
5 yet `span1` keeps 5; symmetrically `span2`'s low 5 is higher than
`span1`'s low 3 and the low is correctly replaced. -/
theorem constrainSpan_high_bug :
    constrainSpan intCollate intCollateNil ⟨[], [some 5], 3⟩ ⟨[], [some 3], 3⟩ =
      ⟨[], [some (5 : Int)], 3⟩ ∧
    constrainSpan intCollate intCollateNil ⟨[some 3], [], 3⟩ ⟨[some 5], [], 3⟩ =
      ⟨[some (5 : Int)], [], 3⟩ := by
  constructor <;> rfl

/-! ### `minimalIndexes` / `narrowerOrEquivalent` (planner/build_scan.go)

Index keys and conditions are opaque (`K`), compared only through the
`SubsetOf` oracle, exactly as the source does.  Candidates are keyed by a
`Nat` id standing for the `datastore.Index` map key. -/

structure IdxEntry (K : Type) where
  keys : List K
  sargKeys : List K
  cond : Option K
deriving DecidableEq, Repr

/-- `narrowerOrEquivalent(se, te)` translated clause for clause. -/
def narrowerOrEquivalent {K : Type} (subsetOf : K → K → Bool)
    (se te : IdxEntry K) : Bool :=
  if te.sargKeys.length > se.sargKeys.length then false
  else if (match te.cond, se.cond with
           | some _, none => true
           | some tc, some sc => !(subsetOf sc tc)
           | none, _ => false) then false
  else if te.sargKeys.all (fun tk => se.sargKeys.any (fun sk => subsetOf sk tk))
  then
    decide (se.sargKeys.length > te.sargKeys.length) ||
      decide (se.keys.length ≤ te.keys.length)
  else false

/-- The property claimed for `narrowerOrEquivalent`, written as the
specification states it. -/
def NarrowerSpec {K : Type} (subsetOf : K → K → Bool)
    (se te : IdxEntry K) : Prop :=
  te.sargKeys.length ≤ se.sargKeys.length ∧
  (∀ tc, te.cond = some tc → ∃ sc, se.cond = some sc ∧ subsetOf sc tc = true) ∧
  (∀ tk ∈ te.sargKeys, ∃ sk ∈ se.sargKeys, subsetOf sk tk = true) ∧
  (te.sargKeys.length < se.sargKeys.length ∨ se.keys.length ≤ te.keys.length)

/-- One pass of the `minimalIndexes` double loop for a fixed survivor
`(sid, se)`: every other entry `t` with `narrowerOrEquivalent(se, te)` is
deleted from the candidate map. -/
def prunePass {K : Type} (subsetOf : K → K → Bool) (se : IdxEntry K)
    (sid : Nat) (l : List (Nat × IdxEntry K)) : List (Nat × IdxEntry K) :=
  l.filter (fun p => p.1 = sid || !(narrowerOrEquivalent subsetOf se p.2))

/-- C4: `narrowerOrEquivalent(se, te)` holds exactly when `se` has at least
as many sarg keys as `te`, any partial condition of `te` is matched by a
`SubsetOf`-stricter condition of `se`, every sarg key of `te` is a
`SubsetOf`-superset of some sarg key of `se`, and the tiebreak (more sarg
keys, or else no more total keys) favours `se`; and the pruning loop drops
a candidate `t ≠ s` exactly when this test succeeds. -/
theorem narrowerOrEquivalent_spec {K : Type} (subsetOf : K → K → Bool)
    (se te : IdxEntry K) (sid tid : Nat) (l : List (Nat × IdxEntry K))
    (hmem : (tid, te) ∈ l) :
    (narrowerOrEquivalent subsetOf se te = true ↔ NarrowerSpec subsetOf se te) ∧
    ((tid, te) ∉ prunePass subsetOf se sid l ↔
      (tid ≠ sid ∧ narrowerOrEquivalent subsetOf se te = true)) := by
  constructor
  · unfold narrowerOrEquivalent NarrowerSpec
    constructor
    · intro h
      split_ifs at h with h1 h2 h3
      refine ⟨by omega, ?_, ?_, ?_⟩
      · intro tc htc
        cases hsc : se.cond with
        | none => rw [htc, hsc] at h2; simp at h2
        | some sc =>
          refine ⟨sc, rfl, ?_⟩
          rw [htc, hsc] at h2
          simpa using h2
      · intro tk htk
        have h3' := List.all_eq_true.mp h3 tk htk
        obtain ⟨sk, hsk, hsub⟩ := List.any_eq_true.mp h3'
        exact ⟨sk, hsk, hsub⟩
      · simp only [Bool.or_eq_true, decide_eq_true_eq] at h
        omega
    · rintro ⟨ha, hb, hc, hd⟩
      split_ifs with h1 h2 h3
      · omega
      · exfalso
        cases htc : te.cond with
        | none => rw [htc] at h2; cases hsc : se.cond <;> rw [hsc] at h2 <;>
            simp at h2
        | some tc =>
          obtain ⟨sc, hsc, hsub⟩ := hb tc htc
          rw [htc, hsc] at h2
          simp [hsub] at h2
      · rcases hd with hd | hd
        · simp [hd]
        · simp [hd]
      · exfalso
        apply h3
        rw [List.all_eq_true]
        intro tk htk
        obtain ⟨sk, hsk, hsub⟩ := hc tk htk
        exact List.any_eq_true.mpr ⟨sk, hsk, hsub⟩
  · unfold prunePass
    constructor
    · intro hout
      by_contra hcon
      apply hout
      rw [List.mem_filter]
      refine ⟨hmem, ?_⟩
      simp only [Bool.or_eq_true, decide_eq_true_eq, Bool.not_eq_true']
      by_cases htid : tid = sid
      · exact Or.inl htid
      · refine Or.inr ?_
        rw [Bool.eq_false_iff]
        intro hn
        exact hcon ⟨htid, hn⟩
    · rintro ⟨htid, hn⟩ hin
      rw [List.mem_filter] at hin
      have := hin.2
      simp only [Bool.or_eq_true, decide_eq_true_eq, Bool.not_eq_true'] at this
      rcases this with h | h
      · exact htid h
      · rw [hn] at h; cases h

/-- Concrete subset oracle for the witnesses. -/
def eqSub (a b : Nat) : Bool := a = b

/-- Witness entry `s` for `narrowerOrEquivalent_spec`. -/
def se0 : IdxEntry Nat := ⟨[1], [1], none⟩

/-- Witness entry `t` for `narrowerOrEquivalent_spec`. -/
def te0 : IdxEntry Nat := ⟨[1], [1], none⟩

/-- Witness for `narrowerOrEquivalent_spec`: on two equivalent single-key
candidates the pruning pass for survivor id 0 drops the entry with id 1. -/
theorem narrowerOrEquivalent_spec_witness :
    (1, te0) ∉ prunePass eqSub se0 0 [(1, te0)] :=
  ((narrowerOrEquivalent_spec eqSub se0 te0 0 1 [(1, te0)]
    (by simp)).2).mpr ⟨by decide, by decide⟩

/-! ### `sargableIndexes` (planner/build_scan.go)

Candidate enumeration.  Expressions (`K`) and the predicate (`P`) are
opaque; `fmap` / `dmap` are `formalizer.Map` / `dnf.Map` (returning `none`
on error; `Copy()` is the identity under value semantics), `subsetOf` is
`SubsetOf` and `sargableFor` is `SargableFor`. -/

structure GoIndex (K : Type) where
  isPrimary : Bool
  rangeKey : List K
  condition : Option K
deriving DecidableEq, Repr

/-- Normalisation of one expression: `formalizer.Map` then `dnf.Map`. -/
def normExpr {K : Type} (fmap dmap : K → Option K) (k : K) : Option K :=
  (fmap k).bind dmap

/-- `sargableIndexes(indexes, pred, primaryKey, dnf, formalizer)` over a
deterministic list standing in for the candidate map. -/
def sargableIndexes {K P : Type} (fmap dmap : K → Option K)
    (subsetOf : P → K → Bool) (sargableFor : P → List K → Nat)
    (primaryKey : List K) (pred : P) :
    List (GoIndex K) → Option (List (GoIndex K × IdxEntry K))
  | [] => some []
  | idx :: rest =>
    match (if idx.isPrimary then some primaryKey
           else idx.rangeKey.mapM (normExpr fmap dmap)) with
    | none => none
    | some keys =>
      match idx.condition with
      | some c =>
        match normExpr fmap dmap c with
        | none => none
        | some c' =>
          if subsetOf pred c' then
            let n := sargableFor pred keys
            (sargableIndexes fmap dmap subsetOf sargableFor primaryKey pred
              rest).map (fun t =>
                if n > 0 then (idx, ⟨keys, keys.take n, some c'⟩) :: t else t)
          else
            sargableIndexes fmap dmap subsetOf sargableFor primaryKey pred rest
      | none =>
        let n := sargableFor pred keys
        (sargableIndexes fmap dmap subsetOf sargableFor primaryKey pred
          rest).map (fun t =>
            if n > 0 then (idx, ⟨keys, keys.take n, none⟩) :: t else t)

/-- C5: every entry returned by `sargableIndexes` passed the partial-index
gate (`SubsetOf(pred, cond)` on the normalised condition), has sargable
prefix length `n > 0`, and its `sargKeys` are exactly the first `n` of its
normalised keys (the constructed primary key for a primary index). -/
theorem sargableIndexes_spec {K P : Type} (fmap dmap : K → Option K)
    (subsetOf : P → K → Bool) (sargableFor : P → List K → Nat)
    (primaryKey : List K) (pred : P) :
    ∀ (idxs : List (GoIndex K)) (entries : List (GoIndex K × IdxEntry K)),
      sargableIndexes fmap dmap subsetOf sargableFor primaryKey pred idxs =
        some entries →
      ∀ p ∈ entries,
        (∀ c', p.2.cond = some c' → subsetOf pred c' = true) ∧
        (∀ c, p.1.condition = some c →
          ∃ c', normExpr fmap dmap c = some c' ∧ p.2.cond = some c') ∧
        (p.1.condition = none → p.2.cond = none) ∧
        sargableFor pred p.2.keys > 0 ∧
        p.2.sargKeys = p.2.keys.take (sargableFor pred p.2.keys) ∧
        (if p.1.isPrimary then some primaryKey
         else p.1.rangeKey.mapM (normExpr fmap dmap)) = some p.2.keys := by
  intro idxs
  induction idxs with
  | nil =>
    intro entries h p hp
    unfold sargableIndexes at h
    cases h
    simp at hp
  | cons idx rest ih =>
    intro entries h p hp
    unfold sargableIndexes at h
    split at h
    · cases h
    · rename_i keys hkeys
      split at h
      · rename_i c hc
        split at h
        · cases h
        · rename_i c' hc'
          split at h
          · rename_i hsub
            obtain ⟨t, ht, hmap⟩ := Option.map_eq_some'.mp h
            subst hmap
            by_cases hn : sargableFor pred keys > 0
            · rw [if_pos hn] at hp
              rcases List.mem_cons.mp hp with hp | hp
              · subst hp
                refine ⟨?_, ?_, ?_, ?_, ?_, ?_⟩
                · intro c'' hcc; cases hcc; exact hsub
                · intro c0 hc0
                  rw [hc] at hc0; cases hc0
                  exact ⟨c', hc', rfl⟩
                · intro h0; rw [hc] at h0; cases h0
                · exact hn
                · rfl
                · exact hkeys
              · exact ih t ht p hp
            · rw [if_neg hn] at hp
              exact ih t ht p hp
          · exact ih entries h p hp
      · rename_i hc
        obtain ⟨t, ht, hmap⟩ := Option.map_eq_some'.mp h
        subst hmap
        by_cases hn : sargableFor pred keys > 0
        · rw [if_pos hn] at hp
          rcases List.mem_cons.mp hp with hp | hp
          · subst hp
            refine ⟨?_, ?_, ?_, ?_, ?_, ?_⟩
            · intro c'' hcc; cases hcc
            · intro c0 hc0; rw [hc] at hc0; cases hc0
            · intro _; rfl
            · exact hn
            · rfl
            · exact hkeys
          · exact ih t ht p hp
        · rw [if_neg hn] at hp
          exact ih t ht p hp

/-- Witness for `sargableIndexes_spec`: a single partial index whose
normalised condition is implied by the predicate and whose first key is
sargable. -/
theorem sargableIndexes_spec_witness :
    (∀ c', (some 7 : Option Nat) = some c' → eqSub 7 c' = true) ∧
    (∀ c, (some 7 : Option Nat) = some c →
      ∃ c', normExpr some some c = some c' ∧ (some 7 : Option Nat) = some c') ∧
    ((some 7 : Option Nat) = none → (some 7 : Option Nat) = none) ∧
    (fun _ ks => ks.length : Nat → List Nat → Nat) 7 [5] > 0 ∧
    ([5] : List Nat) = [5].take ((fun _ ks => ks.length : Nat → List Nat → Nat) 7 [5]) ∧
    (if false then some ([9] : List Nat)
     else [5].mapM (normExpr some some)) = some [5] := by
  have h := sargableIndexes_spec (K := Nat) (P := Nat) some some eqSub
    (fun _ ks => ks.length) [9] 7 [⟨false, [5], some 7⟩]
    [(⟨false, [5], some 7⟩, ⟨[5], [5], some 7⟩)] (by decide)
    (⟨false, [5], some 7⟩, ⟨[5], [5], some 7⟩) (by simp)
  exact h

/-! ### `buildSecondaryScan` (planner/build_scan.go)

Scan-tree assembly.  `coveringResult` abstracts the outcome of the
covering-scan path (`this.cover != nil` and `buildCoveringScan` returning
a scan); the claim concerns the non-covering path, where it is `none`. -/

inductive ScanOp where
  | indexScan (idx : Nat) (spans : List Span)
  | unionScan (child : ScanOp)
  | intersectScan (children : List ScanOp)

/-- `buildSecondaryScan(secondaries, node, limit)` over a deterministic
list standing in for the survivors map; `none` models the Go panic on an
empty map (`scans[0]` out of range), which the caller precludes. -/
def buildSecondaryScan (coveringResult : Option ScanOp)
    (secondaries : List (Nat × List Span)) : Option ScanOp :=
  match coveringResult with
  | some scan => some scan
  | none =>
    let scans := secondaries.map (fun p =>
      let op := ScanOp.indexScan p.1 p.2
      if p.2.length > 1 then ScanOp.unionScan op else op)
    if scans.length > 1 then some (ScanOp.intersectScan scans)
    else scans.head?

/-- The per-index node as the specification describes it: an `IndexScan`,
wrapped in a `UnionScan` exactly when the index's spans disjunction has
more than one element. -/
def wrapOne (p : Nat × List Span) : ScanOp :=
  if p.2.length > 1 then ScanOp.unionScan (ScanOp.indexScan p.1 p.2)
  else ScanOp.indexScan p.1 p.2

/-- C6: with no covering scan, `buildSecondaryScan` union-wraps each
surviving index exactly when that index has more than one span, wraps the
per-index scans in an `IntersectScan` exactly when more than one index
survived, and returns the bare `IndexScan` for a single single-span
index. -/
theorem buildSecondaryScan_shape (secondaries : List (Nat × List Span))
    (h : secondaries ≠ []) :
    buildSecondaryScan none secondaries =
      some (if secondaries.length > 1
        then ScanOp.intersectScan (secondaries.map wrapOne)
        else wrapOne (secondaries.head (by simpa using h))) ∧
    (∀ i sp, secondaries = [(i, sp)] → sp.length ≤ 1 →
      buildSecondaryScan none secondaries = some (ScanOp.indexScan i sp)) := by
  constructor
  · match secondaries, h with
    | [p], _ =>
      simp [buildSecondaryScan, wrapOne]
    | p :: q :: rest, _ =>
      have hlen : ((p :: q :: rest).map wrapOne).length > 1 := by simp
      have hlen' : (p :: q :: rest).length > 1 := by simp
      show (if ((p :: q :: rest).map wrapOne).length > 1
          then some (ScanOp.intersectScan ((p :: q :: rest).map wrapOne))
          else ((p :: q :: rest).map wrapOne).head?) = _
      rw [if_pos hlen, if_pos hlen']
  · intro i sp heq hsp
    subst heq
    have hle : ¬ (sp.length > 1) := by omega
    simp [buildSecondaryScan, hle]

/-- Witness for `buildSecondaryScan_shape`: one surviving index with a
single span yields the bare `IndexScan`. -/
theorem buildSecondaryScan_shape_witness :
    buildSecondaryScan none [(0, [FULL_SPAN])] =
      some (ScanOp.indexScan 0 [FULL_SPAN]) :=
  (buildSecondaryScan_shape [(0, [FULL_SPAN])] (by simp)).2 0 [FULL_SPAN]
    rfl (by simp [FULL_SPANS])

/-! ### `buildPrimaryIndex` (planner/build_scan.go)

The catalog surface is modelled by data: a `Prim` is a
`datastore.PrimaryIndex` handle whose `state` models `State()`
(`.error` = non-nil error), a `DIdx` is a `datastore.Index` whose
`asPrimary` models the Go type assertion to `PrimaryIndex`, and
`indexersRes` models the `keyspace.Indexers()` call.  The function returns
the Go pair `(primary, err)`. -/

inductive IdxState where
  | deferred
  | building
  | pending
  | online
  | offline
deriving DecidableEq, Repr

structure Prim where
  name : String
  state : Except String IdxState

structure DIdx where
  isPrimary : Bool
  asPrimary : Option Prim
  name : String

structure IndexerM where
  primaryIndexes : Except String (List Prim)

/-- The inner `for _, primary = range primaries` loop.  `.inl` is a
`return` out of `buildPrimaryIndex`; `.inr` carries the last value the
named return variable `primary` was assigned. -/
def primariesLoop : List Prim → Option Prim →
    (Option Prim × Option String) ⊕ Option Prim
  | [], last => .inr last
  | p :: rest, _ =>
    match p.state with
    | .error e => .inl (none, some e)
    | .ok st =>
      if st = IdxState.online then .inl (some p, none)
      else primariesLoop rest (some p)

/-- The outer `for _, indexer := range indexers` loop. -/
def indexersLoop : List IndexerM → Option Prim →
    (Option Prim × Option String) ⊕ Option Prim
  | [], last => .inr last
  | ixr :: rest, last =>
    match ixr.primaryIndexes with
    | .error e => .inl (none, some e)
    | .ok prims =>
      match primariesLoop prims last with
      | .inl r => .inl r
      | .inr last' => indexersLoop rest last'

/-- First primary index in a hint / candidate slice (`continue` skips
non-primary entries; the loop returns on the first primary one). -/
def findFirstPrimary : List DIdx → Option DIdx
  | [] => none
  | idx :: rest => if idx.isPrimary then some idx else findFirstPrimary rest

/-- `buildPrimaryIndex(keyspace, hintIndexes, otherIndexes)`.  The
`indexersRes = .error` arm reproduces the source line `return nil, err`:
`err` is the function's own (still nil) named error, not the catalog error
`er`, so the function returns a nil index with a nil error. -/
def buildPrimaryIndex (hintIndexes : List DIdx)
    (otherIndexes : Option (List DIdx))
    (indexersRes : Except String (List IndexerM)) (ksName : String) :
    Option Prim × Option String :=
  match findFirstPrimary hintIndexes with
  | some idx =>
    match idx.asPrimary with
    | some p => (some p, none)
    | none => (none, some ("Unable to cast primary index " ++ idx.name))
  | none =>
    match (match otherIndexes with
           | some lst => findFirstPrimary lst
           | none => none) with
    | some idx =>
      match idx.asPrimary with
      | some p => (some p, none)
      | none => (none, some ("Unable to cast primary index " ++ idx.name))
    | none =>
      match indexersRes with
      | .error _ => (none, none)
      | .ok indexers =>
        match indexersLoop indexers none with
        | .inl r => r
        | .inr last =>
          match last with
          | none => (none, some ("No primary index on keyspace " ++ ksName ++
              ". Use CREATE PRIMARY INDEX to create one."))
          | some p => (none, some ("Primary index " ++ p.name ++
              " not online."))

/-- C7 fails on the code at the catalog-failure arm: with no primary among
hints or other candidates and `keyspace.Indexers()` failing,
`buildPrimaryIndex` returns a nil index with a nil error (the source
returns the nil named `err` instead of the catalog error `er`), whereas
the claim requires a fatal error.  The no-online-primary arm, by contrast,
does return the instructive fatal error the claim describes. -/
theorem buildPrimaryIndex_catalog_error_dropped :
    buildPrimaryIndex [] none (.error "indexers unavailable") "orders" =
      (none, none) ∧
    buildPrimaryIndex [] none (.ok []) "orders" =
      (none, some ("No primary index on keyspace orders." ++
        " Use CREATE PRIMARY INDEX to create one.")) := by
  constructor <;> rfl

/-! ### `IndexConnection.Error` (datastore/index.go)

The connection's observable state: the `primary` and `timeout` flags and
the errors forwarded to the owning `Context` (`context.Error(err)` appends
to `ctxErrors`).  The numeric value of `errors.INDEX_SCAN_TIMEOUT` is not
part of the excerpt, so it is a parameter; only the comparison with
`err.Code()` matters. -/

structure ErrM where
  code : Int
deriving DecidableEq, Repr

structure IndexConnection where
  primary : Bool
  timeout : Bool
  ctxErrors : List ErrM
deriving DecidableEq, Repr

/-- `NewIndexConnection(context)`: both flags start false. -/
def NewIndexConnection : IndexConnection := ⟨false, false, []⟩

/-- `IndexConnection.SetPrimary()` -/
def IndexConnection.SetPrimary (c : IndexConnection) : IndexConnection :=
  { c with primary := true }

/-- `IndexConnection.Timeout()` -/
def IndexConnection.Timeout (c : IndexConnection) : Bool := c.timeout

/-- `IndexConnection.Error(err)` -/
def IndexConnection.Error (c : IndexConnection) (scanTimeoutCode : Int)
    (e : ErrM) : IndexConnection :=
  if c.primary && e.code == scanTimeoutCode then { c with timeout := true }
  else { c with ctxErrors := c.ctxErrors ++ [e] }

/-- C8: after `SetPrimary`, an error with the scan-timeout code sets the
`timeout` flag and is not forwarded to the context; any other error, and
any error on a non-primary connection, is forwarded unchanged with the
`timeout` flag untouched. -/
theorem indexConnection_error_spec (scanTimeoutCode : Int)
    (c : IndexConnection) (e : ErrM) :
    (e.code = scanTimeoutCode →
      ((c.SetPrimary).Error scanTimeoutCode e).Timeout = true ∧
      ((c.SetPrimary).Error scanTimeoutCode e).ctxErrors = c.ctxErrors) ∧
    (e.code ≠ scanTimeoutCode →
      ((c.SetPrimary).Error scanTimeoutCode e).ctxErrors = c.ctxErrors ++ [e] ∧
      ((c.SetPrimary).Error scanTimeoutCode e).Timeout = c.Timeout) ∧
    (c.primary = false →
      (c.Error scanTimeoutCode e).ctxErrors = c.ctxErrors ++ [e] ∧
      (c.Error scanTimeoutCode e).Timeout = c.Timeout) := by
  refine ⟨?_, ?_, ?_⟩
  · intro hcode
    simp [IndexConnection.Error, IndexConnection.SetPrimary,
      IndexConnection.Timeout, hcode]
  · intro hcode
    simp [IndexConnection.Error, IndexConnection.SetPrimary,
      IndexConnection.Timeout, hcode]
  · intro hprim
    simp [IndexConnection.Error, IndexConnection.Timeout, hprim]

/-- Witness for `indexConnection_error_spec`: a primary connection
receiving a timeout-coded error records the timeout and forwards
nothing. -/
theorem indexConnection_error_spec_witness :
    ((NewIndexConnection.SetPrimary).Error 4080 ⟨4080⟩).Timeout = true ∧
    ((NewIndexConnection.SetPrimary).Error 4080 ⟨4080⟩).ctxErrors = [] :=
  (indexConnection_error_spec 4080 NewIndexConnection ⟨4080⟩).1 rfl

/-! ### `buildScan` predicate handling (planner/build_scan.go)

The expression AST is a heap of shared mutable nodes (`MapChildren`
mutates in place, which is why `buildScan` runs `pred = pred.Copy()`
before `dnf.Map(pred)`).  A node id is its heap position; well-formedness
says children point strictly downward (the AST is acyclic).  `Copy()` is a
deep copy: it materialises the subtree in fresh nodes and leaves every
existing node untouched.  The DNF mapper is abstracted as any function
that rewrites only nodes reachable from its argument. -/

structure ENode where
  children : List Nat
  tag : Nat
deriving DecidableEq, Repr

/-- Children point strictly downward (acyclic expression sharing). -/
def WFStore (σ : List ENode) : Prop :=
  ∀ (i : Nat) (nd : ENode), σ[i]? = some nd → ∀ c ∈ nd.children, c < i

/-- The value of the expression tree rooted at `r` (what "structurally
unchanged" ranges over).  `fuel` bounds the depth; under `WFStore` any
`fuel > r` is exact. -/
inductive ETree where
  | node (tag : Nat) (children : List ETree)

def treeOf : Nat → List ENode → Nat → ETree
  | 0, _, _ => .node 0 []
  | fuel + 1, σ, r =>
    match σ[r]? with
    | none => .node 0 []
    | some nd => .node nd.tag (nd.children.map (treeOf fuel σ))

/-- `Expression.Copy()` on the heap: a deep copy of the subtree at `r`
(realised by remapping the prefix `0..r`, which under `WFStore` contains
the whole subtree) into fresh nodes; the new root is `σ.length + r`. -/
def copyExpr (σ : List ENode) (r : Nat) : List ENode × Nat :=
  (σ ++ (σ.take (r + 1)).map
      (fun nd => ⟨nd.children.map (· + σ.length), nd.tag⟩),
    σ.length + r)

/-- The ids a tree-rewriting mapper may read or write, starting from its
argument root. -/
def reachSet : Nat → List ENode → Nat → List Nat
  | 0, _, r => [r]
  | fuel + 1, σ, r =>
    r :: (match σ[r]? with
          | none => []
          | some nd => nd.children.flatMap (reachSet fuel σ))

/-- Frame contract of `dnf.Map`: a mapper may rewrite (only) nodes
reachable from the expression it is given, and may allocate fresh ones. -/
def MapLocal (f : List ENode → Nat → List ENode × Nat) : Prop :=
  ∀ σ r i, i < σ.length → i ∉ reachSet σ.length σ r →
    (f σ r).1[i]? = σ[i]?

/-- Lines 73–74 of `buildScan`: `pred = pred.Copy()` then
`pred, err = dnf.Map(pred)`. -/
def buildScanPred (dnfMap : List ENode → Nat → List ENode × Nat)
    (σ : List ENode) (pred : Nat) : List ENode × Nat :=
  let c := copyExpr σ pred
  dnfMap c.1 c.2

theorem copyExpr_preserve (σ : List ENode) (r i : Nat) (h : i < σ.length) :
    (copyExpr σ r).1[i]? = σ[i]? := by
  unfold copyExpr
  rw [List.getElem?_append_left h]

theorem copyExpr_children_fresh (σ : List ENode) (r j : Nat)
    (hj : σ.length ≤ j) (nd : ENode)
    (hnd : (copyExpr σ r).1[j]? = some nd) :
    ∀ c ∈ nd.children, σ.length ≤ c := by
  unfold copyExpr at hnd
  rw [List.getElem?_append_right hj, List.getElem?_map] at hnd
  cases hold : (σ.take (r + 1))[j - σ.length]? with
  | none => rw [hold] at hnd; cases hnd
  | some nd0 =>
    rw [hold] at hnd
    cases hnd
    intro c hc
    simp only [List.mem_map] at hc
    obtain ⟨c0, _, hc0⟩ := hc
    omega

theorem reachSet_fresh (L : Nat) (σ₁ : List ENode)
    (hfresh : ∀ j nd, L ≤ j → σ₁[j]? = some nd →
      ∀ c ∈ nd.children, L ≤ c) :
    ∀ fuel p, L ≤ p → ∀ i ∈ reachSet fuel σ₁ p, L ≤ i := by
  intro fuel
  induction fuel with
  | zero =>
    intro p hp i hi
    unfold reachSet at hi
    simp at hi
    omega
  | succ f ih =>
    intro p hp i hi
    unfold reachSet at hi
    rcases List.mem_cons.mp hi with hi | hi
    · omega
    · cases hnd : σ₁[p]? with
      | none => rw [hnd] at hi; cases hi
      | some nd =>
        rw [hnd] at hi
        obtain ⟨c, hc, hic⟩ := List.mem_flatMap.mp hi
        exact ih c (hfresh p nd hp hnd c hc) i hic

theorem treeOf_congr (σ τ : List ENode) (hwf : WFStore σ)
    (hagree : ∀ i, i < σ.length → τ[i]? = σ[i]?) :
    ∀ fuel r, r < σ.length → treeOf fuel τ r = treeOf fuel σ r := by
  have hwf' : ∀ (i : Nat) (nd : ENode), σ[i]? = some nd →
      ∀ c ∈ nd.children, c < i := hwf
  intro fuel
  induction fuel with
  | zero => intro r _; rfl
  | succ f ih =>
    intro r hr
    unfold treeOf
    rw [hagree r hr]
    cases hnd : σ[r]? with
    | none => rfl
    | some nd =>
      have hchild : ∀ c ∈ nd.children, c < r := hwf' r nd hnd
      show ETree.node nd.tag (nd.children.map (treeOf f τ)) =
        ETree.node nd.tag (nd.children.map (treeOf f σ))
      congr 1
      apply List.map_congr_left
      intro c hc
      exact ih c (lt_trans (hchild c hc) hr)

/-- C9: `buildScan` normalises a deep copy of the WHERE predicate, so for
any DNF mapper that rewrites only nodes reachable from its argument, every
pre-existing node of the expression heap — in particular the caller's
predicate tree — is unchanged when it returns. -/
theorem buildScan_pred_immutable
    (dnfMap : List ENode → Nat → List ENode × Nat) (hloc : MapLocal dnfMap)
    (σ : List ENode) (pred : Nat) (hwf : WFStore σ)
    (hpred : pred < σ.length) :
    (∀ i, i < σ.length → (buildScanPred dnfMap σ pred).1[i]? = σ[i]?) ∧
    (∀ fuel, treeOf fuel (buildScanPred dnfMap σ pred).1 pred =
      treeOf fuel σ pred) := by
  have hpre : ∀ i, i < σ.length →
      (buildScanPred dnfMap σ pred).1[i]? = σ[i]? := by
    intro i hi
    unfold buildScanPred
    have hfresh : ∀ j nd, σ.length ≤ j → (copyExpr σ pred).1[j]? = some nd →
        ∀ c ∈ nd.children, σ.length ≤ c :=
      fun j nd hj hnd => copyExpr_children_fresh σ pred j hj nd hnd
    have hnotin : i ∉ reachSet (copyExpr σ pred).1.length (copyExpr σ pred).1
        (copyExpr σ pred).2 := by
      intro hin
      have := reachSet_fresh σ.length (copyExpr σ pred).1 hfresh
        (copyExpr σ pred).1.length (copyExpr σ pred).2
        (by unfold copyExpr; omega) i hin
      omega
    have hilt : i < (copyExpr σ pred).1.length := by
      unfold copyExpr
      simp only [List.length_append]
      omega
    rw [hloc (copyExpr σ pred).1 (copyExpr σ pred).2 i hilt hnotin]
    exact copyExpr_preserve σ pred i hi
  exact ⟨hpre, fun fuel => treeOf_congr σ _ hwf hpre fuel pred hpred⟩

/-- Identity mapper used by the witness (vacuously rewrites nothing). -/
def idMap (σ : List ENode) (r : Nat) : List ENode × Nat := (σ, r)

/-- Two-node heap used by the witness: node 1 (the predicate) has child
node 0. -/
def sigw : List ENode := [⟨[], 5⟩, ⟨[0], 7⟩]

theorem sigw_wf : WFStore sigw := by
  unfold WFStore
  intro i nd h c hc
  match i with
  | 0 =>
    simp [sigw] at h
    rw [← h] at hc
    simp at hc
  | 1 =>
    simp [sigw] at h
    rw [← h] at hc
    simp at hc
    omega
  | n + 2 => simp [sigw] at h

/-- Witness for `buildScan_pred_immutable` on the concrete two-node heap
with the identity mapper. -/
theorem buildScan_pred_immutable_witness :
    (∀ i, i < sigw.length → (buildScanPred idMap sigw 1).1[i]? = sigw[i]?) ∧
    (∀ fuel, treeOf fuel (buildScanPred idMap sigw 1).1 1 =
      treeOf fuel sigw 1) :=
  buildScan_pred_immutable idMap
    (fun _ _ _ _ _ => rfl) sigw 1 sigw_wf (by simp [sigw])

/-! ### error envelope `MarshalJSON` (errors/errors.go) -/

structure ErrEnvelope where
  ICode : Int
  IKey : String
  ICause : Option String
  InternalMsg : String
  InternalCaller : String
deriving DecidableEq, Repr

/-- Go `strings.HasPrefix(s, prefix)`. -/
def goHasPrefix (s pre : String) : Bool := pre.data.isPrefixOf s.data

/-- The keys of the JSON object built by `err.MarshalJSON` (field values
are irrelevant to the claim).  Note the source tests the literal string
`"e.InternalCaller"`, not the field value. -/
def marshalJSONKeys (e : ErrEnvelope) : List String :=
  (["code", "key", "message"] ++ (if e.ICause ≠ none then ["cause"] else []))
    ++ (if e.InternalCaller ≠ "" &&
          !(goHasPrefix "e.InternalCaller" "unknown:") then ["caller"]
        else [])

theorem goHasPrefix_literal :
    goHasPrefix "e.InternalCaller" "unknown:" = false := by decide

/-- C10: whenever `InternalCaller` is non-empty, `MarshalJSON` emits the
`"caller"` field — even when the caller string begins with `"unknown:"` —
because the suppression test inspects the literal string
`"e.InternalCaller"` rather than the field value and so never fires. -/
theorem marshalJSON_caller_always (e : ErrEnvelope)
    (h : e.InternalCaller ≠ "") : "caller" ∈ marshalJSONKeys e := by
  unfold marshalJSONKeys
  rw [goHasPrefix_literal]
  simp [h]

/-- Witness for `marshalJSON_caller_always` at a caller string that does
begin with `"unknown:"`. -/
theorem marshalJSON_caller_always_witness :
    "caller" ∈ marshalJSONKeys ⟨5000, "k", none, "m", "unknown:0"⟩ :=
  marshalJSON_caller_always ⟨5000, "k", none, "m", "unknown:0"⟩ (by decide)

end Planner
